import Mathlib

/-!
Shallow embedding of the query engine of the `bix` tabix reader
(`bix.go`, `csi.go`, and the earlier cached variant of the package)
together with proofs settling the frozen specification claims.

Lines and chromosome names are modelled as lists of characters (the
source works on ASCII byte strings, so byte indices and character
indices coincide).  Fallible steps of the source (strconv.Atoi errors,
out-of-range indexing / slicing, which in Go are runtime panics) are
made explicit in the result types.
-/

/-- Byte strings of the source are modelled as lists of characters. -/
abbrev Str := List Char

/-- Does `p` occur at the start of `s`?  Models `strings.HasPrefix s p`. -/
def isPre : Str → Str → Bool
  | [], _ => true
  | _ :: _, [] => false
  | p :: ps, c :: cs => p = c && isPre ps cs

/-- Index of the first occurrence of `pat` in `s`, models `strings.Index s pat`
(`none` stands for Go's -1). -/
def findSub (pat : Str) : Str → Option Nat
  | [] => if isPre pat [] then some 0 else none
  | c :: t =>
    if isPre pat (c :: t) then some 0
    else (findSub pat t).map (fun n => n + 1)

/-- Split on a separator character; models `bytes.Split` / `strings.Split`
(which return one possibly-empty token even for empty input). -/
def splitCh (sep : Char) : Str → List Str
  | [] => [[]]
  | c :: rest =>
    match splitCh sep rest with
    | [] => [[]]
    | h :: t => if c = sep then [] :: h :: t else (c :: h) :: t

/-- The part of `s` before the first `sep`, and the remainder after it
(`none` when `sep` does not occur). -/
def breakCh (sep : Char) : Str → Str × Option Str
  | [] => ([], none)
  | c :: t =>
    if c = sep then ([], some t)
    else
      match breakCh sep t with
      | (a, r) => (c :: a, r)

/-- `strings.SplitN s sep n`: at most `n` tokens, the last one holding the
unsplit remainder. -/
def splitN (sep : Char) : Nat → Str → List Str
  | 0, _ => []
  | 1, s => [s]
  | n + 2, s =>
    match breakCh sep s with
    | (a, none) => [a]
    | (a, some rest) => a :: splitN sep (n + 1) rest

def allDigits (cs : Str) : Bool := cs.all (fun c => '0' ≤ c && c ≤ '9')

def digitsVal (cs : Str) : Nat :=
  cs.foldl (fun a c => a * 10 + (c.toNat - ('0').toNat)) 0

/-- `strconv.Atoi`: optional sign followed by at least one digit
(`none` is the error case; machine-word overflow is not reached by any
input considered here). -/
def atoi : Str → Option Int
  | [] => none
  | '-' :: rest =>
    if rest ≠ [] && allDigits rest then some (-(digitsVal rest : Int)) else none
  | '+' :: rest =>
    if rest ≠ [] && allDigits rest then some (digitsVal rest : Int) else none
  | c :: rest =>
    if allDigits (c :: rest) then some (digitsVal (c :: rest) : Int) else none

/-- A query region: `region.Start()` and `region.End()` converted to `int`
as done at every use site of the source. -/
structure Region where
  qstart : Int
  qend : Int
deriving DecidableEq, Repr

/-- Outcome of classifying one line against a bound region, the
`(bool, error)` pair of `inBounds` made explicit:
`overlap` = `(true, nil)`, `skip` = `(false, nil)`,
`stop` = `(false, io.EOF)`, `parseErr` = a `strconv.Atoi` error,
`panic` = an out-of-range index or slice (Go runtime panic). -/
inductive Classification where
  | overlap
  | skip
  | stop
  | parseErr
  | panic
deriving DecidableEq, Repr

/-- The index descriptor fields consumed by the classifier
(1-based columns exactly as stored in the tabix/CSI index;
`endColumn = 0` means no explicit end column).  `isVCF` models
`tbx.VReader != nil`. -/
structure IdxCfg where
  beginColumn : Nat
  endColumn : Nat
  zeroBased : Bool
  isVCF : Bool
deriving DecidableEq, Repr

/-- `makeFields` of bix.go: split the line in at most 9 fields, the first
eight being single columns and the ninth holding all remaining
(sample/genotype) columns joined; a line whose 8th column is its last
yields 8 fields.  Modelled for lines of at least 8 columns (on shorter
lines the source's offset arithmetic slices out of range). -/
def makeFields (line : Str) : List Str :=
  let ps := splitN '\t' 8 line
  if ps.length < 8 then ps
  else
    match ps.get? 7 with
    | none => ps
    | some last8 =>
      match breakCh '\t' last8 with
      | (a, none) => ps.take 7 ++ [a]
      | (a, some rest) =>
        if rest = [] then ps.take 7 ++ [a] else ps.take 7 ++ [a, rest]

def cn0 : Str := ("<CN0>").data
def delTag : Str := ("<DEL>").data.take 4
def dupTag : Str := ("<DUP>").data.take 4
def invTag : Str := ("<INV>").data.take 4
def cnTag : Str := ("<CN>").data.take 3
def endKey : Str := (";END=").data

/-- The per-allele loop of `inBounds` (bix.go lines 466-488): literal and
`<CN0>` alleles extend to `pos+lref`; `<DEL>/<DUP>/<INV>/<CN…>` alleles
look for the substring `";END="` in the annotation field and read the
integer strictly between it and the next `';'`; when no `';'` follows,
the source slices `info[idx+5 : idx+4]`, a runtime panic. -/
def allelesLoop (qstart pos lref : Int) (infoF : Option Str) : List Str → Classification
  | [] => .skip
  | a :: rest =>
    match a with
    | [] => .panic
    | c :: _ =>
      if c ≠ '<' ∨ a = cn0 then
        if pos + lref > qstart then .overlap else allelesLoop qstart pos lref infoF rest
      else if isPre delTag a || isPre dupTag a || isPre invTag a || isPre cnTag a then
        match infoF with
        | none => .panic
        | some info =>
          match findSub endKey info with
          | some idx =>
            match findSub [';'] (info.drop (idx + 5)) with
            | none => .panic
            | some j =>
              match atoi ((info.drop (idx + 5)).take j) with
              | none => .parseErr
              | some e =>
                if e > qstart then .overlap else allelesLoop qstart pos lref infoF rest
          | none => allelesLoop qstart pos lref infoF rest
      else allelesLoop qstart pos lref infoF rest

/-- Tokenization of `bixerator.inBounds`: `makeFields` for VCF input,
`bytes.Split` otherwise. -/
def toksOf (cfg : IdxCfg) (line : Str) : List Str :=
  if cfg.isVCF then makeFields line else splitCh '\t' line

/-- The classification steps of `bixerator.inBounds` after the begin
column has been parsed and normalized to `pos`: STOP at `pos ≥ qend`;
with an explicit end column, skip iff the parsed end is `< qstart` and
overlap otherwise; with none, for VCF input, the variant-extent allele
logic; with none and non-VCF input, the final `return false, readErr`. -/
def classifyPos (cfg : IdxCfg) (q : Region) (toks : List Str) (pos : Int) : Classification :=
  if q.qend ≤ pos then .stop
  else if cfg.endColumn ≠ 0 then
    match toks.get? (cfg.endColumn - 1) with
    | none => .panic
    | some ef =>
      match atoi ef with
      | none => .parseErr
      | some e => if e < q.qstart then .skip else .overlap
  else if cfg.isVCF then
    match toks.get? 3, toks.get? 4 with
    | some rf, some af =>
      if q.qstart ≥ pos + (rf.length : Int) then
        allelesLoop q.qstart pos (rf.length : Int) (toks.get? 7) (splitCh ',' af)
      else .overlap
    | _, _ => .panic
  else .skip

/-- `bixerator.inBounds` of bix.go (lines 429-496): tokenize, parse the
begin column, normalize (`pos = begin - 1` unless zero-based), then
classify via `classifyPos`. -/
def inBounds (cfg : IdxCfg) (q : Region) (line : Str) : Classification :=
  match (toksOf cfg line).get? (cfg.beginColumn - 1) with
  | none => .panic
  | some bf =>
    match atoi bf with
    | none => .parseErr
    | some s => classifyPos cfg q (toksOf cfg line) (if cfg.zeroBased then s else s - 1)

/-- Parsed begin-column value of a line, if it parses. -/
def lineBeginVal (cfg : IdxCfg) (line : Str) : Option Int :=
  ((toksOf cfg line).get? (cfg.beginColumn - 1)).bind atoi

/-- Normalized position of a line (`pos` of the source), if it parses. -/
def linePos (cfg : IdxCfg) (line : Str) : Option Int :=
  (lineBeginVal cfg line).map (fun s => if cfg.zeroBased then s else s - 1)

/-- Parsed end-column value of a line, if it parses. -/
def lineEndVal (cfg : IdxCfg) (line : Str) : Option Int :=
  ((toksOf cfg line).get? (cfg.endColumn - 1)).bind atoi

/-- Normalized position with default 0, for stating sortedness. -/
def posD (cfg : IdxCfg) (line : Str) : Int := (linePos cfg line).getD 0

/-- `bixerator.Next` iterated to exhaustion for a region-bound query
(bix.go lines 294-332): OVERLAP yields the line's record and continues,
SKIP reads the next line, anything else (`io.EOF` from STOP, a parse
error, a panic) ends the sequence.  Records are built per line by
`toPosition`, a deterministic function of the tokens, so the yielded
lines determine the yielded records. -/
def runBound (cfg : IdxCfg) (q : Region) : List Str → List Str
  | [] => []
  | l :: ls =>
    match inBounds cfg q l with
    | .overlap => l :: runBound cfg q ls
    | .skip => runBound cfg q ls
    | _ => []

/-- Failure modes of the index chunk lookup:
`noRef` = `index.ErrNoReference`, `invalid` = `index.ErrInvalid`,
`other` = any other error. -/
inductive LookupErr where
  | noRef
  | invalid
  | other
deriving DecidableEq, Repr

/-- A bgzf chunk, an opaque pair of virtual file offsets. -/
structure Chunk where
  beg : Nat
  fin : Nat
deriving DecidableEq, Repr

def chrTag : Str := ("chr").data

/-- `stripChr` of csi.go: remove a leading "chr" if present. -/
def stripChr (c : Str) : Str := if isPre chrTag c then c.drop 3 else c

/-- The chromosome name used for the single retry of `ChunkedReader`:
strip a "chr" prefix if present, else prepend one. -/
def toggleChr (c : Str) : Str := if isPre chrTag c then c.drop 3 else chrTag ++ c

/-- `Bix.ChunkedReader` of bix.go (lines 225-247), with the index's
`Chunks` method abstracted as `lookup`: on `ErrNoReference` retry once
with the "chr" prefix toggled; then `ErrInvalid` or a (still) missing
reference produce an empty chunk list and no error, any other error is
returned, and a successful lookup's chunks feed the chunk reader. -/
def chunkedReader (lookup : Str → Except LookupErr (List Chunk)) (chrom : Str) :
    Except LookupErr (List Chunk) :=
  let r0 := lookup chrom
  let r1 :=
    match r0 with
    | .error .noRef => lookup (toggleChr chrom)
    | _ => r0
  match r1 with
  | .error .invalid => .ok []
  | .error .noRef => .ok []
  | .error .other => .error .other
  | .ok chunks => .ok chunks

/-- Position of a chromosome name in the index's name list. -/
def refIdOf (chroms : List Str) (c : Str) : Option Nat :=
  match chroms with
  | [] => none
  | h :: t => if h = c then some 0 else (refIdOf t c).map (fun i => i + 1)

/-- Modelled from the spec: the external tabix-index lookup collaborator
(§6, "possibly failing with a distinguishable 'unknown reference'
condition").  The on-disk index stores a chromosome-name list; a queried
name resolves to the chunk list of its reference id, an absent name to
the unknown-reference failure.  `chunkFn` abstracts the bin/linear-index
walk for a given reference id. -/
def tabixLookup (chroms : List Str) (chunkFn : Nat → List Chunk) (c : Str) :
    Except LookupErr (List Chunk) :=
  match refIdOf chroms c with
  | some i => .ok (chunkFn i)
  | none => .error .noRef

/-- End-to-end record sequence of a bound query: resolve chunks with the
"chr" fallback, decode their content into lines (`content` abstracts the
external bgzf chunk reader), and iterate the classifier over them. -/
def queryRecords (chroms : List Str) (chunkFn : Nat → List Chunk)
    (content : List Chunk → List Str) (cfg : IdxCfg) (q : Region) (chrom : Str) :
    Except LookupErr (List Str) :=
  (chunkedReader (tabixLookup chroms chunkFn) chrom).map
    (fun chunks => runBound cfg q (content chunks))

/-- The chromosome-search loop of `cIndex.Chunks` (csi.go lines 93-104):
first index whose stripped stored name equals the stripped query, else
the source's initial value -1. -/
def cFindAux (key : Str) (i : Int) : List Str → Int
  | [] => -1
  | h :: t => if stripChr h = key then i else cFindAux key (i + 1) t

/-- `cIndex.Chunks` of csi.go: strip the query name, compare against each
stored name stripped, and hand the found reference id (or -1) to the
underlying CSI chunk walk `chunkFn`; the error returned is always nil,
modelled by an `Except` value that is always `ok`. -/
def cChunks (chroms : List Str) (chunkFn : Int → Int → Int → List Chunk)
    (chrom : Str) (start finish : Int) : Except LookupErr (List Chunk) :=
  .ok (chunkFn (cFindAux (stripChr chrom) 0 chroms) start finish)

/-- The header-skipping loop of `Bix.Query` with a nil region
(bix.go lines 367-381): with the current line `l` and the remaining
stream `rest`, while `i < Skip()` or `l` starts with the meta character,
read the next line (an exhausted stream is the error return); on exit the
current line is pushed back in front of the stream only when
`Skip() == 0` and it does not start with the meta character. -/
def unboundGo (skip : Nat) (meta : Char) : Nat → Str → List Str → Option (List Str)
  | i, l, rest =>
    if i < skip ∨ l.head? = some meta then
      match rest with
      | [] => none
      | l2 :: r2 => unboundGo skip meta (i + 1) l2 r2
    else if skip = 0 ∧ l.head? ≠ some meta then some (l :: rest)
    else some rest

/-- The line stream an unbound query iterates over: the file's lines
after the header-skipping loop (every one of which is built and yielded,
since `inBounds` is bypassed when no region is set). -/
def unboundStream (skip : Nat) (meta : Char) : List Str → Option (List Str)
  | [] => none
  | l :: rest => unboundGo skip meta 0 l rest

/-- A generic interval record as built by `newgeneric` (`parsers.Interval`
with its chromosome and raw fields elided; `endv` models the `End()`
accessor, `end` being reserved in Lean). -/
structure BixInterval where
  start : Int
  endv : Int
deriving DecidableEq, Repr

/-- The per-allele loop of the cached engine's `inBounds`
(src/unnamed/part_001 lines 220-241): identical to `allelesLoop` except
that the literal-allele test is just `a[0] != '<'`, with no `<CN0>`
special case. -/
def allelesLoopR (qstart pos lref : Int) (infoF : Option Str) : List Str → Classification
  | [] => .skip
  | a :: rest =>
    match a with
    | [] => .panic
    | c :: _ =>
      if c ≠ '<' then
        if pos + lref > qstart then .overlap else allelesLoopR qstart pos lref infoF rest
      else if isPre delTag a || isPre dupTag a || isPre invTag a || isPre cnTag a then
        match infoF with
        | none => .panic
        | some info =>
          match findSub endKey info with
          | some idx =>
            match findSub [';'] (info.drop (idx + 5)) with
            | none => .panic
            | some j =>
              match atoi ((info.drop (idx + 5)).take j) with
              | none => .parseErr
              | some e =>
                if e > qstart then .overlap else allelesLoopR qstart pos lref infoF rest
          | none => allelesLoopR qstart pos lref infoF rest
      else allelesLoopR qstart pos lref infoF rest

/-- Classification steps of the cached engine's `inBounds` after the
begin column has been parsed and normalized; like `classifyPos` but with
the cached engine's allele loop. -/
def classifyPosR (cfg : IdxCfg) (q : Region) (toks : List Str) (pos : Int) : Classification :=
  if q.qend ≤ pos then .stop
  else if cfg.endColumn ≠ 0 then
    match toks.get? (cfg.endColumn - 1) with
    | none => .panic
    | some ef =>
      match atoi ef with
      | none => .parseErr
      | some e => if e < q.qstart then .skip else .overlap
  else if cfg.isVCF then
    match toks.get? 3, toks.get? 4 with
    | some rf, some af =>
      if q.qstart ≥ pos + (rf.length : Int) then
        allelesLoopR q.qstart pos (rf.length : Int) (toks.get? 7) (splitCh ',' af)
      else .overlap
    | _, _ => .panic
  else .skip

/-- `bytes.TrimRight(line, "\r\n")`: remove every trailing carriage
return or newline character. -/
def trimRight (line : Str) : Str :=
  (line.reverse.dropWhile (fun c => c = '\r' ∨ c = '\n')).reverse

/-- `bixReader.inBounds` of the cached engine (src/unnamed/part_001 lines
191-249): trim trailing `"\r\n"` (line 194), then like `inBounds` of
bix.go but tokenizing every line with `bytes.Split` (`r.endCol == -1` of
the source corresponds to `endColumn = 0` in the 1-based descriptor;
`r.add` is the `-1` normalization; `r.isVCF` plays the role of the
variant-parser flag).  Lines are the `'\n'`-terminated lines the chunk
reader delivers, terminator included (an unterminated EOF tail is
discarded by both loops of `Get` before ever reaching this function). -/
def inBoundsR (cfg : IdxCfg) (q : Region) (line : Str) : Classification :=
  match (splitCh '\t' (trimRight line)).get? (cfg.beginColumn - 1) with
  | none => .panic
  | some bf =>
    match atoi bf with
    | none => .parseErr
    | some s =>
      classifyPosR cfg q (splitCh '\t' (trimRight line)) (if cfg.zeroBased then s else s - 1)

/-- Parsed begin-column value as the cached engine's `inBounds` sees it
(after its TrimRight). -/
def lineBeginValR (cfg : IdxCfg) (line : Str) : Option Int :=
  ((splitCh '\t' (trimRight line)).get? (cfg.beginColumn - 1)).bind atoi

/-- Normalized position as the cached engine's `inBounds` sees it. -/
def linePosR (cfg : IdxCfg) (line : Str) : Option Int :=
  (lineBeginValR cfg line).map (fun s => if cfg.zeroBased then s else s - 1)

/-- Parsed end-column value as the cached engine's `inBounds` sees it. -/
def lineEndValR (cfg : IdxCfg) (line : Str) : Option Int :=
  ((splitCh '\t' (trimRight line)).get? (cfg.endColumn - 1)).bind atoi

/-- `newgeneric` on a token list: parse the begin column, normalize it
unless zero-based, parse the end column (`none` collapses the source's
parse-error return and its out-of-range panics). -/
def newgenericM (cfg : IdxCfg) (toks : List Str) : Option BixInterval :=
  match (toks.get? (cfg.beginColumn - 1)).bind atoi with
  | none => none
  | some s =>
    let pos := if cfg.zeroBased then s else s - 1
    match (toks.get? (cfg.endColumn - 1)).bind atoi with
    | none => none
    | some e => some { start := pos, endv := e }

/-- Record built by `toPosition` in the streaming branch of `Get`
(generic, non-variant mode): there the tokens come from `inBounds`,
which split the trimmed line, so the record is `newgeneric` over the
trimmed line's tab-split tokens. -/
def parseRec (cfg : IdxCfg) (line : Str) : Option BixInterval :=
  newgenericM cfg (splitCh '\t' (trimRight line))

/-- `r.maxCol` as computed by `newReader` (src/unnamed/part_001 lines
164-182): `max(startCol, endCol) + 2` over the 0-based columns,
overridden to 9 for VCF input (for `endColumn = 0` Go's `endCol` is -1
and the maximum is `startCol`; Nat subtraction gives the same value
since `beginColumn ≥ 1`). -/
def maxColR (cfg : IdxCfg) : Nat :=
  if cfg.isVCF then 9 else max (cfg.beginColumn - 1) (cfg.endColumn - 1) + 2

/-- Record built by one iteration of `fillCache` (src/unnamed/part_001
lines 263-273): the raw line — trailing `'\n'` included, `fillCache`
performs no TrimRight — is split with `SplitN(line, '\t', r.maxCol)` and
handed to `toPosition`.  A field holding the terminator (an end column
that is the file's last column) fails `Atoi`, so `newgeneric` returns
nil and a nil record is cached. -/
def fillCacheRec (cfg : IdxCfg) (line : Str) : Option BixInterval :=
  newgenericM cfg (splitN '\t' (maxColR cfg) line)

/-- `fillCache` (src/unnamed/part_001 lines 251-276): parse the entire
chunk once, appending the record built from every raw line in order. -/
def fillCacheM (cfg : IdxCfg) (lines : List Str) : List (Option BixInterval) :=
  lines.map (fillCacheRec cfg)

/-- Modelled from the spec: `interfaces.OverlapsPosition`, the external
region-overlap test applied by the cache scan, is out of scope of the
source (§1); §4.5 prescribes "the region-overlap test" of §4.3, which
for a built record `v = {pos, parsedEnd}` reads
"overlap iff parsedEnd ≥ qstart, combined with the pos < qend test". -/
def overlapsPosition (v : BixInterval) (q : Region) : Bool :=
  v.start < q.qend && q.qstart ≤ v.endv

/-- The cache branch of `Get` (src/unnamed/part_001 lines 294-306): walk
the memoized record list; a nil record is passed over, an overlapping one
is collected, one starting at or past the region's end breaks the scan,
any other is passed over.  A record `toPosition` failed to build is a Go
interface holding a nil pointer: the source's `v != nil` guard does not
catch it, and the external overlap test can build no record from it (in
the reference implementation it faults on the nil interval); the model
takes the reading most favorable to the cache path and lets such an
entry contribute nothing. -/
def cachedScan (q : Region) : List (Option BixInterval) → List BixInterval
  | [] => []
  | none :: rest => cachedScan q rest
  | some v :: rest =>
    if overlapsPosition v q then v :: cachedScan q rest
    else if q.qend ≤ v.start then []
    else cachedScan q rest

/-- The streaming branch of `Get` (src/unnamed/part_001 lines 307-337):
classify each line; STOP breaks, a parse error or skip reads on, an
overlapping line's built record is collected (a line Go would panic on
ends the model's scan). -/
def directScan (cfg : IdxCfg) (q : Region) : List Str → List BixInterval
  | [] => []
  | l :: rest =>
    match inBoundsR cfg q l with
    | .overlap =>
      match parseRec cfg l with
      | some ip => ip :: directScan cfg q rest
      | none => directScan cfg q rest
    | .skip => directScan cfg q rest
    | .parseErr => directScan cfg q rest
    | _ => []

/-- `sizeCutoff` of `Get` (src/unnamed/part_001 line 288): the literal
`uint32(65536 / 2)`. -/
def sizeCutoff : Nat := 65536 / 2

/-- Modelled from the spec: the index's minimum addressable block
resolution, absent from src/ — the package README (src/unnamed/part_002)
states "Tabix has a minimum resolution of 16K bases". -/
def tabixMinResolution : Nat := 16384

/-- `Bix.Get` (src/unnamed/part_001 lines 278-340) for a generic file,
over the lines decoded from the resolved chunk list and the current
memoized cache: when the span is below `sizeCutoff` an empty cache is
first filled from the whole chunk, and the loop serves the query from the
cache; otherwise every iteration takes the streaming branch and the cache
is left untouched.  The span test `q.End()-q.Start() < sizeCutoff` is
loop-invariant in the source, so the loop is split on it once.  Returns
the collected overlaps and the cache as left behind. -/
def bixGet (cfg : IdxCfg) (cache : List (Option BixInterval)) (lines : List Str)
    (q : Region) : List BixInterval × List (Option BixInterval) :=
  let dense := q.qend - q.qstart < (sizeCutoff : Int)
  let cache2 := if cache.isEmpty && dense then fillCacheM cfg lines else cache
  if dense then (cachedScan q cache2, cache2)
  else (directScan cfg q lines, cache2)

/-- The descriptor of claim C1's scenario (and of any VCF file):
begin column 2, no end column, 1-based, variant parser attached. -/
def vcfCfg : IdxCfg := { beginColumn := 2, endColumn := 0, zeroBased := false, isVCF := true }

/-- The descriptor of a 1-based file with an explicit end column in
column 3 (spec Scenario A). -/
def bedCfg : IdxCfg := { beginColumn := 2, endColumn := 3, zeroBased := false, isVCF := false }

/-- C1: the claim states that in variant-extent mode the classifier
locates the `END=` key of the annotation field and, for the line
`1\t1000\t.\tA\t<DEL>\t.\t.\tEND=2000` (beginColumn 2, endColumn absent,
1-based), classifies query (1,1500,1600) as OVERLAP via END=2000>1500.
The code instead searches for the substring `";END="`, which an `END=`
key at the start of the annotation field does not contain, so both this
query and (1,2500,2600) classify as SKIP (the source logs "no end" and
the allele contributes nothing). -/
theorem C1_end_key_at_field_start_missed :
    inBounds vcfCfg ⟨1500, 1600⟩ (("1\t1000\t.\tA\t<DEL>\t.\t.\tEND=2000").data) =
      Classification.skip
    ∧ inBounds vcfCfg ⟨2500, 2600⟩ (("1\t1000\t.\tA\t<DEL>\t.\t.\tEND=2000").data) =
      Classification.skip := by
  exact ⟨by decide, by decide⟩

/-- C5: the claim states that a variant-extent line whose annotation
field ends with its `END=` pair (no trailing semicolon) is classified
totally, reading the integer up to the field end.  The code slices
`info[idx+5 : idx+5+strings.Index(info[idx+5:], ";")]`; with no `';'`
after the END value the inner Index is -1 and the slice bounds are
inverted — a runtime panic, modelled as the `panic` outcome. -/
theorem C5_end_as_last_pair_panics :
    inBounds vcfCfg ⟨1500, 1600⟩ (("1\t1000\t.\tA\t<DEL>\t.\t.\tDP=3;END=2000").data) =
      Classification.panic := by
  decide

/-- C9: the claim states that an unbound query streams every data line
starting at the first line past the skip count that does not begin with
the meta character.  With skip count 1 and meta '#', on the file
["#h", "d1", "d2"] the header-skipping loop of `Query` consumes "d1" and
the push-back guard `Skip() == 0` prevents restoring it, so the iterator
sees only ["d2"] — the first data line is dropped. -/
theorem C9_skip_positive_drops_first_data_line :
    unboundStream 1 '#' [("#h").data, ("d1").data, ("d2").data] =
      some [("d2").data]
    ∧ unboundStream 0 '#' [("#h").data, ("d1").data, ("d2").data] =
      some [("d1").data, ("d2").data] := by
  exact ⟨by decide, by decide⟩

/-- C8 counterexample: the claim states the cache-activation threshold
equals half of the index's minimum addressable block resolution; the
README puts that resolution at 16K bases, but the source's threshold is
`uint32(65536 / 2)` = 32768 ≠ 8192. -/
theorem C8_threshold_not_half_min_resolution :
    sizeCutoff ≠ tabixMinResolution / 2 := by
  decide

/-- Chromosome list of the C10 counterexample index: it knows "1". -/
def c10Chroms : List Str := [("1").data]

/-- CSI chunk walk of the C10 counterexample: reference id 0 owns one
chunk, any other id (including the fallthrough -1) owns none. -/
def c10ChunkFn : Int → Int → Int → List Chunk :=
  fun i _ _ => if i = 0 then [⟨1, 2⟩] else []

/-- C10 counterexample: the claim's equation
`Chunks(c,s,e) = Chunks(stripChr c,s,e)` for every chromosome name fails
at `c = "chrchr1"`: `stripChr` removes only one "chr", so the query key
for "chrchr1" is "chr1", matching no stored name (reference id -1),
while the key for `stripChr "chrchr1" = "chr1"` is "1", matching
reference id 0. -/
theorem C10_double_chr_name_differs :
    cChunks c10Chroms c10ChunkFn (("chrchr1").data) 5 10 = .ok []
    ∧ cChunks c10Chroms c10ChunkFn (stripChr (("chrchr1").data)) 5 10 = .ok [⟨1, 2⟩]
    ∧ ([] : List Chunk) ≠ [⟨1, 2⟩] := by
  exact ⟨rfl, rfl, by decide⟩

lemma inBounds_eq_classifyPos (cfg : IdxCfg) (q : Region) (line : Str) (p : Int)
    (hp : linePos cfg line = some p) :
    inBounds cfg q line = classifyPos cfg q (toksOf cfg line) p := by
  unfold linePos lineBeginVal at hp
  obtain ⟨s, hs, hps⟩ := Option.map_eq_some'.1 hp
  obtain ⟨bf, hbf, hat⟩ := Option.bind_eq_some.1 hs
  unfold inBounds
  simp only [hbf, hat, hps]

/-- C3: with an explicit end column, a line classifies OVERLAP iff its
normalized position is below the region's end and its parsed end column
reaches the region's start; a line that passed the position test but
whose end falls short of the region's start classifies SKIP. -/
theorem C3_explicit_end_column (cfg : IdxCfg) (q : Region) (line : Str) (p e : Int)
    (hend : cfg.endColumn ≠ 0)
    (hp : linePos cfg line = some p)
    (he : lineEndVal cfg line = some e) :
    (inBounds cfg q line = .overlap ↔ (p < q.qend ∧ q.qstart ≤ e))
    ∧ (p < q.qend → e < q.qstart → inBounds cfg q line = .skip) := by
  obtain ⟨ef, hef, hate⟩ := Option.bind_eq_some.1 he
  rw [inBounds_eq_classifyPos cfg q line p hp]
  unfold classifyPos
  rw [if_pos hend]
  simp only [hef, hate]
  constructor
  · constructor
    · intro hov
      by_cases h1 : q.qend ≤ p
      · rw [if_pos h1] at hov
        exact absurd hov (by decide)
      · rw [if_neg h1] at hov
        by_cases h2 : e < q.qstart
        · rw [if_pos h2] at hov
          exact absurd hov (by decide)
        · exact ⟨lt_of_not_le h1, le_of_not_lt h2⟩
    · rintro ⟨h1, h2⟩
      rw [if_neg (not_le.2 h1), if_neg (not_lt.2 h2)]
  · intro h1 h2
    rw [if_neg (not_le.2 h1), if_pos h2]

lemma allelesLoop_ne_stop (qstart pos lref : Int) (infoF : Option Str) (alts : List Str) :
    allelesLoop qstart pos lref infoF alts ≠ .stop := by
  induction alts with
  | nil => simp [allelesLoop]
  | cons a rest ih =>
    unfold allelesLoop
    rcases a with _ | ⟨c, t⟩
    · simp
    · repeat' split
      all_goals simp_all

lemma classifyPos_ne_stop (cfg : IdxCfg) (q : Region) (toks : List Str) (pos : Int)
    (h : ¬ q.qend ≤ pos) : classifyPos cfg q toks pos ≠ .stop := by
  unfold classifyPos
  rw [if_neg h]
  repeat' split
  all_goals first
  | exact allelesLoop_ne_stop _ _ _ _ _
  | simp

lemma inBounds_stop_iff (cfg : IdxCfg) (q : Region) (line : Str) (p : Int)
    (hp : linePos cfg line = some p) :
    (inBounds cfg q line = .stop ↔ q.qend ≤ p) := by
  rw [inBounds_eq_classifyPos cfg q line p hp]
  constructor
  · intro hs
    by_contra hne
    exact classifyPos_ne_stop cfg q (toksOf cfg line) p hne hs
  · intro hle
    unfold classifyPos
    rw [if_pos hle]

lemma runBound_stops (cfg : IdxCfg) (q : Region) (l : Str) (post : List Str)
    (hst : inBounds cfg q l = .stop) :
    ∀ pre : List Str, runBound cfg q (pre ++ l :: post) = runBound cfg q pre := by
  intro pre
  induction pre with
  | nil =>
    simp only [List.nil_append, runBound, hst]
  | cons h t ih =>
    simp only [List.cons_append, runBound, List.append_eq, ih]

/-- C4: over a coordinate-sorted block, the classifier returns STOP
exactly on lines whose normalized position is at or past the region's
end; the iterated `Next` loop then yields nothing further (the sequence
produced over the whole block equals the one produced over the lines
before the stopping line), and no line after the stopping line
classifies OVERLAP. -/
theorem C4_stop_invariant (cfg : IdxCfg) (q : Region) (lines : List Str)
    (hwf : ∀ l ∈ lines, (linePos cfg l).isSome)
    (hsort : lines.Pairwise (fun a b => posD cfg a ≤ posD cfg b)) :
    (∀ l ∈ lines, (inBounds cfg q l = .stop ↔ q.qend ≤ posD cfg l))
    ∧ (∀ pre l post, lines = pre ++ l :: post → inBounds cfg q l = .stop →
        runBound cfg q lines = runBound cfg q pre
        ∧ ∀ l2 ∈ post, inBounds cfg q l2 ≠ .overlap) := by
  have hpt : ∀ l ∈ lines, (inBounds cfg q l = .stop ↔ q.qend ≤ posD cfg l) := by
    intro l hl
    obtain ⟨p, hp⟩ := Option.isSome_iff_exists.1 (hwf l hl)
    have hiff := inBounds_stop_iff cfg q l p hp
    rwa [posD, hp, Option.getD_some]
  refine ⟨hpt, ?_⟩
  intro pre l post hsplit hstop
  constructor
  · rw [hsplit]
    exact runBound_stops cfg q l post hstop pre
  · intro l2 hl2
    have hmem1 : l ∈ lines := by
      rw [hsplit]
      exact List.mem_append_right _ (List.mem_cons_self _ _)
    have hmem2 : l2 ∈ lines := by
      rw [hsplit]
      exact List.mem_append_right _ (List.mem_cons_of_mem _ hl2)
    have hrel : posD cfg l ≤ posD cfg l2 := by
      rw [hsplit] at hsort
      exact (List.pairwise_cons.1 (List.pairwise_append.1 hsort).2.1).1 l2 hl2
    have hst2 : inBounds cfg q l2 = .stop :=
      (hpt l2 hmem2).2 (le_trans ((hpt l hmem1).1 hstop) hrel)
    rw [hst2]
    simp

theorem C3_witness :
    bedCfg.endColumn ≠ 0
    ∧ linePos bedCfg (("1\t100\t200\tfoo").data) = some 99
    ∧ lineEndVal bedCfg (("1\t100\t200\tfoo").data) = some 200
    ∧ inBounds bedCfg ⟨150, 160⟩ (("1\t100\t200\tfoo").data) = .overlap :=
  ⟨by decide, by decide, by decide,
    (C3_explicit_end_column bedCfg ⟨150, 160⟩ (("1\t100\t200\tfoo").data) 99 200
      (by decide) (by decide) (by decide)).1.2 ⟨by decide, by decide⟩⟩

theorem C4_witness :
    runBound bedCfg ⟨150, 160⟩
        [("1\t100\t200").data, ("1\t300\t400").data, ("1\t500\t600").data]
      = runBound bedCfg ⟨150, 160⟩ [("1\t100\t200").data]
    ∧ inBounds bedCfg ⟨150, 160⟩ (("1\t500\t600").data) ≠ .overlap := by
  have h := C4_stop_invariant bedCfg ⟨150, 160⟩
    [("1\t100\t200").data, ("1\t300\t400").data, ("1\t500\t600").data]
    (by decide) (by decide)
  have h2 := h.2 [("1\t100\t200").data] (("1\t300\t400").data) [("1\t500\t600").data]
    rfl (by decide)
  exact ⟨h2.1, h2.2 (("1\t500\t600").data) (by decide)⟩

/-- C8 (amended): the density threshold is the literal 65536/2 = 32768
(half the 64 KiB bgzf block size, not half the 16K-base minimum tabix
resolution), and a query whose span reaches it is answered by direct
streaming with the cache neither populated nor consulted. -/
theorem C8_above_threshold_streams_directly (cfg : IdxCfg)
    (cache : List (Option BixInterval)) (lines : List Str) (q : Region)
    (h : (sizeCutoff : Int) ≤ q.qend - q.qstart) :
    sizeCutoff = 65536 / 2 ∧ bixGet cfg cache lines q = (directScan cfg q lines, cache) := by
  refine ⟨rfl, ?_⟩
  unfold bixGet
  have hd : ¬ (q.qend - q.qstart < (sizeCutoff : Int)) := not_lt.2 h
  simp [hd]

theorem C8_witness :
    (sizeCutoff : Int) ≤ (40000 : Int) - (0 : Int)
    ∧ bixGet bedCfg [] [("1\t100\t200").data] ⟨0, 40000⟩ = ([⟨99, 200⟩], []) := by
  refine ⟨by decide, ?_⟩
  have h := (C8_above_threshold_streams_directly bedCfg [] [("1\t100\t200").data]
    ⟨0, 40000⟩ (by decide)).2
  rw [h]
  decide

/-- C2: the claim states that a dense-mode query served from the cache
returns the same record set as direct streamed classification over the
same chunk list.  `fillCache` splits the raw line with its trailing
newline (no TrimRight, unlike `inBounds`), so on a file whose end column
is its last column — here the single chunk line "1\t100\t200\n" —
`Atoi("200\n")` fails, a nil record is cached, and the dense query
(150,160) served through the cache returns nothing, while direct
streamed classification of the same line trims it and returns the
record {99, 200}. -/
theorem C2_cache_fill_misses_trailing_newline :
    fillCacheM bedCfg [("1\t100\t200\n").data] = [none]
    ∧ (bixGet bedCfg [] [("1\t100\t200\n").data] ⟨150, 160⟩).1 = []
    ∧ directScan bedCfg ⟨150, 160⟩ [("1\t100\t200\n").data] = [⟨99, 200⟩]
    ∧ ([] : List BixInterval) ≠ [⟨99, 200⟩] := by
  exact ⟨by decide, by decide, by decide, by decide⟩

/-- C6: the chunk resolver retries a failed reference lookup exactly once
with the "chr" prefix toggled (stripped when present, else prepended);
a lookup (or retry) ending in reference-not-found or structurally
invalid input yields an empty chunk list with no error, a successful one
yields its chunks, and any other error is surfaced to the caller. -/
theorem C6_lookup_fallback (lookup : Str → Except LookupErr (List Chunk)) (chrom : Str) :
    (∀ cs, lookup chrom = .ok cs → chunkedReader lookup chrom = .ok cs)
    ∧ (lookup chrom = .error .invalid → chunkedReader lookup chrom = .ok [])
    ∧ (lookup chrom = .error .other → chunkedReader lookup chrom = .error .other)
    ∧ (lookup chrom = .error .noRef →
        (∀ cs, lookup (toggleChr chrom) = .ok cs → chunkedReader lookup chrom = .ok cs)
        ∧ (lookup (toggleChr chrom) = .error .noRef → chunkedReader lookup chrom = .ok [])
        ∧ (lookup (toggleChr chrom) = .error .invalid → chunkedReader lookup chrom = .ok [])
        ∧ (lookup (toggleChr chrom) = .error .other →
            chunkedReader lookup chrom = .error .other))
    ∧ (isPre chrTag chrom = true → toggleChr chrom = chrom.drop 3)
    ∧ (isPre chrTag chrom = false → toggleChr chrom = chrTag ++ chrom) := by
  refine ⟨?_, ?_, ?_, ?_, ?_, ?_⟩
  · intro cs h
    simp [chunkedReader, h]
  · intro h
    simp [chunkedReader, h]
  · intro h
    simp [chunkedReader, h]
  · intro h
    refine ⟨?_, ?_, ?_, ?_⟩ <;> intros <;> simp_all [chunkedReader]
  · intro h
    simp [toggleChr, h]
  · intro h
    simp [toggleChr, h]

/-- Demonstration lookup for the C6 witness: the index knows only "1". -/
def c6Lookup : Str → Except LookupErr (List Chunk) :=
  fun c => if c = ("1").data then .ok [⟨3, 7⟩] else .error .noRef

theorem C6_witness :
    c6Lookup (("chr1").data) = .error .noRef
    ∧ chunkedReader c6Lookup (("chr1").data) = .ok [⟨3, 7⟩] :=
  ⟨rfl, ((C6_lookup_fallback c6Lookup (("chr1").data)).2.2.2.1 rfl).1 [⟨3, 7⟩] rfl⟩

lemma refIdOf_eq_none (chroms : List Str) (c : Str) (h : c ∉ chroms) :
    refIdOf chroms c = none := by
  induction chroms with
  | nil => rfl
  | cons a t ih =>
    simp only [List.mem_cons, not_or] at h
    unfold refIdOf
    rw [if_neg (fun hh => h.1 hh.symm), ih h.2]
    rfl

lemma refIdOf_isSome (chroms : List Str) (c : Str) (h : c ∈ chroms) :
    (refIdOf chroms c).isSome := by
  induction chroms with
  | nil => cases h
  | cons a t ih =>
    unfold refIdOf
    by_cases ha : a = c
    · rw [if_pos ha]
      rfl
    · rw [if_neg ha]
      have hmem : c ∈ t := by
        rcases List.mem_cons.1 h with h1 | h2
        · exact absurd h1.symm ha
        · exact h2
      obtain ⟨i, hi⟩ := Option.isSome_iff_exists.1 (ih hmem)
      rw [hi]
      rfl

/-- C7: against an index whose chromosome list contains "1" but not
"chr1", a query for "chr1" resolves, through the single "chr"-toggling
retry, to the same chunk list as a query for "1", hence to the same
record sequence. -/
theorem C7_chr_fallback_same_records (chroms : List Str) (chunkFn : Nat → List Chunk)
    (content : List Chunk → List Str) (cfg : IdxCfg) (q : Region)
    (h1 : ("1").data ∈ chroms) (h2 : ("chr1").data ∉ chroms) :
    queryRecords chroms chunkFn content cfg q (("chr1").data)
      = queryRecords chroms chunkFn content cfg q (("1").data) := by
  obtain ⟨i, hi⟩ := Option.isSome_iff_exists.1 (refIdOf_isSome chroms (("1").data) h1)
  have hn : refIdOf chroms (("chr1").data) = none := refIdOf_eq_none chroms _ h2
  have ht : toggleChr (("chr1").data) = ("1").data := by decide
  unfold queryRecords chunkedReader tabixLookup
  simp only [hn, ht, hi]

def c7Chroms : List Str := [("1").data]

def c7ChunkFn : Nat → List Chunk := fun i => [⟨i, i + 1⟩]

def c7Content : List Chunk → List Str := fun _ => [("1\t100\t200").data]

theorem C7_witness :
    queryRecords c7Chroms c7ChunkFn c7Content bedCfg ⟨150, 160⟩ (("chr1").data)
      = queryRecords c7Chroms c7ChunkFn c7Content bedCfg ⟨150, 160⟩ (("1").data)
    ∧ queryRecords c7Chroms c7ChunkFn c7Content bedCfg ⟨150, 160⟩ (("1").data)
      = .ok [("1\t100\t200").data] :=
  ⟨C7_chr_fallback_same_records c7Chroms c7ChunkFn c7Content bedCfg ⟨150, 160⟩
      (by decide) (by decide),
    rfl⟩

lemma stripChr_of_not_chr (x : Str) (h : isPre chrTag x = false) : stripChr x = x := by
  unfold stripChr
  rw [h]
  simp

/-- C10 (amended): for every chromosome name whose once-stripped form
does not itself start with "chr", the CSI chunk lookup is
"chr"-insensitive — `Chunks(c,s,e) = Chunks(stripChr c,s,e)` — and the
lookup never returns an error for any name (an unmatched name falls
through to the underlying index with reference id -1). -/
theorem C10_strip_insensitive_amended (chroms : List Str)
    (chunkFn : Int → Int → Int → List Chunk) (c : Str) (s e : Int)
    (h : isPre chrTag (stripChr c) = false) :
    cChunks chroms chunkFn c s e = cChunks chroms chunkFn (stripChr c) s e
    ∧ ∀ c2 s2 e2, ∃ cs, cChunks chroms chunkFn c2 s2 e2 = .ok cs := by
  constructor
  · unfold cChunks
    rw [stripChr_of_not_chr (stripChr c) h]
  · intro c2 s2 e2
    exact ⟨_, rfl⟩

theorem C10_witness :
    isPre chrTag (stripChr (("chr1").data)) = false
    ∧ cChunks c10Chroms c10ChunkFn (("chr1").data) 5 10
        = cChunks c10Chroms c10ChunkFn (stripChr (("chr1").data)) 5 10 :=
  ⟨by decide,
    (C10_strip_insensitive_amended c10Chroms c10ChunkFn (("chr1").data) 5 10 (by decide)).1⟩
